import Mathlib

/-!
Verification of the videogenpipeline composition core against its
natural-language specification.

The repository excerpt under `src/` contains the React frontend (API client
`api.ts`, Zustand project store, dashboard/composer components) and the SQL
schema.  The backend composition core (AudioTimelineBuilder,
ImageDistributionPlanner, AssetApprovalRegistry, CompositionJobScheduler,
RenderPipeline) is not part of the excerpt; only its HTTP callers are.  Those
components are therefore modelled here directly from the specification's
words (each such definition carries a doc comment starting
`Modelled from the spec:`).  The frontend functions that ARE in the excerpt
(`apiRequest` in `src/frontend/src/services/api.ts` and `addAudioFile` in
`src/unnamed/part_006`) are embedded from the source.

Durations are modelled as rationals (`ℚ`): backend durations are decimal
seconds and all arithmetic the spec describes (prefix sums, division by the
image count, weight normalisation) is exact rational arithmetic with the
rounding remainder absorbed into the last slice.
-/

namespace VideoGenPipeline

/-! ### Error taxonomy (spec §7) -/

/-- Modelled from the spec: the error taxonomy of §7 for the missing backend
core (`ValidationError`, `ConflictError`, `NotFoundError`,
`AlreadyApprovedError`, `AlreadyRejectedError`). -/
inductive CoreError where
  | validation (msg : String)
  | conflict (msg : String)
  | notFound (msg : String)
  | alreadyApproved (msg : String)
  | alreadyRejected (msg : String)
deriving Repr, DecidableEq

/-! ### AudioTimelineBuilder (spec §3, §4.1) -/

/-- An audio track reference as in spec §3: id, filename, positive duration
in seconds, caller-supplied order index. -/
structure AudioTrackRef where
  id : String
  filename : String
  duration_seconds : ℚ
  order_index : ℕ
deriving Repr, DecidableEq

/-- A derived audio timeline as in spec §3: the tracks in caller order, the
parallel offset sequence, and the total duration. -/
structure AudioTimeline where
  tracks : List AudioTrackRef
  offsets : List ℚ
  total_duration : ℚ
deriving Repr, DecidableEq

/-- Modelled from the spec: the single left-to-right prefix sum of §4.1 that
computes `offset[i] = sum(duration[0..i-1])` (the backend implementation is
missing from the excerpt). -/
def prefixOffsets : ℚ → List ℚ → List ℚ
  | _, [] => []
  | acc, d :: ds => acc :: prefixOffsets (acc + d) ds

/-- Modelled from the spec: `AudioTimelineBuilder` of §4.1 (missing from the
excerpt).  Fails with `ValidationError` if the list is empty or any duration
is ≤ 0; otherwise returns the timeline with offsets computed by one
left-to-right prefix sum, with the caller-supplied track order preserved and
never re-sorted. -/
def buildTimeline (tracks : List AudioTrackRef) : Except CoreError AudioTimeline :=
  if tracks = [] then
    .error (.validation "no audio tracks supplied")
  else if tracks.any (fun t => decide (t.duration_seconds ≤ 0)) then
    .error (.validation "non-positive track duration")
  else
    let durs := tracks.map (fun t => t.duration_seconds)
    .ok { tracks := tracks, offsets := prefixOffsets 0 durs, total_duration := durs.sum }

theorem prefixOffsets_length (acc : ℚ) (ds : List ℚ) :
    (prefixOffsets acc ds).length = ds.length := by
  induction ds generalizing acc with
  | nil => rfl
  | cons d ds ih => simp [prefixOffsets, ih]

theorem prefixOffsets_getElem (acc : ℚ) (ds : List ℚ) (i : ℕ) (hi : i < ds.length)
    (h2 : i < (prefixOffsets acc ds).length) :
    (prefixOffsets acc ds)[i] = acc + (ds.take i).sum := by
  induction ds generalizing acc i with
  | nil => exact absurd hi (by simp)
  | cons d ds ih =>
    cases i with
    | zero => simp [prefixOffsets]
    | succ j =>
      have hj : j < ds.length := by simpa using hi
      have hj2 : j < (prefixOffsets (acc + d) ds).length := by
        rw [prefixOffsets_length]; exact hj
      have := ih (acc + d) j hj hj2
      simp only [prefixOffsets, List.getElem_cons_succ, List.take_succ_cons,
        List.sum_cons]
      rw [this]; ring

/-! ### ImageDistributionPlanner (spec §3, §4.2) -/

/-- The distribution strategy offered by the composer UI
(`src/unnamed/part_003`, the `image_distribution` setting). -/
inductive DistributionStrategy where
  | equal
  | proportional
deriving Repr, DecidableEq

/-- One entry of a DistributionPlan as in spec §3:
{image_id, start_offset, slice_duration}. -/
structure PlannedSlice where
  image_id : String
  start_offset : ℚ
  slice_duration : ℚ
deriving Repr, DecidableEq, Inhabited

/-- Modelled from the spec: the equal-strategy slice durations of §4.2
(planner implementation missing from the excerpt): `total / M` for all but
the last slice, the last slice absorbing the rounding remainder so the sum
is exact. -/
def equalDurations (total : ℚ) (M : ℕ) : List ℚ :=
  List.replicate (M - 1) (total / M) ++ [total - (total / M) * ((M - 1 : ℕ) : ℚ)]

/-- Modelled from the spec: the proportional-strategy slice durations of
§4.2 (planner implementation missing from the excerpt): weights
`w_i = i + 1`, `slice_duration[i] = total × w_i / Σw`, with the rounding
remainder absorbed into the last slice. -/
def proportionalFront (total : ℚ) (M : ℕ) : List ℚ :=
  let wsum : ℚ := ((List.range M).map (fun (i : ℕ) => (i : ℚ) + 1)).sum
  (List.range (M - 1)).map (fun (i : ℕ) => total * ((i : ℚ) + 1) / wsum)

def proportionalDurations (total : ℚ) (M : ℕ) : List ℚ :=
  proportionalFront total M ++ [total - (proportionalFront total M).sum]

/-- Slice durations for a chosen strategy. -/
def sliceDurations : DistributionStrategy → ℚ → ℕ → List ℚ
  | .equal, total, M => equalDurations total M
  | .proportional, total, M => proportionalDurations total M

/-- Modelled from the spec: the running cumulative sum of §4.2 assigning
each image its start offset (planner implementation missing from the
excerpt). -/
def cumPlan : ℚ → List (String × ℚ) → List PlannedSlice
  | _, [] => []
  | start, p :: rest => ⟨p.1, start, p.2⟩ :: cumPlan (start + p.2) rest

/-- Modelled from the spec: `ImageDistributionPlanner` of §4.2 (missing
from the excerpt).  Fails with `ValidationError` if `M = 0` or
`total_duration ≤ 0`; otherwise pairs the caller-ordered image ids with the
strategy's slice durations and lays them out by a running cumulative sum. -/
def planDistribution (total : ℚ) (imageIds : List String)
    (strategy : DistributionStrategy) : Except CoreError (List PlannedSlice) :=
  if imageIds = [] then
    .error (.validation "no approved images selected")
  else if total ≤ 0 then
    .error (.validation "non-positive total duration")
  else
    .ok (cumPlan 0 (imageIds.zip (sliceDurations strategy total imageIds.length)))

theorem cumPlan_length (s : ℚ) (l : List (String × ℚ)) :
    (cumPlan s l).length = l.length := by
  induction l generalizing s with
  | nil => rfl
  | cons p rest ih => simp [cumPlan, ih]

theorem cumPlan_map_duration (s : ℚ) (l : List (String × ℚ)) :
    (cumPlan s l).map (fun x => x.slice_duration) = l.map Prod.snd := by
  induction l generalizing s with
  | nil => rfl
  | cons p rest ih => simp [cumPlan, ih]

theorem cumPlan_getElem (s : ℚ) (l : List (String × ℚ)) (i : ℕ) (hi : i < l.length)
    (h2 : i < (cumPlan s l).length) :
    (cumPlan s l)[i] = ⟨(l[i]).1, s + ((l.map Prod.snd).take i).sum, (l[i]).2⟩ := by
  induction l generalizing s i with
  | nil => exact absurd hi (by simp)
  | cons p rest ih =>
    cases i with
    | zero => simp [cumPlan]
    | succ j =>
      have hj : j < rest.length := by simpa using hi
      have hj2 : j < (cumPlan (s + p.2) rest).length := by
        rw [cumPlan_length]; exact hj
      have := ih (s + p.2) j hj hj2
      simp only [cumPlan, List.getElem_cons_succ, List.map_cons, List.take_succ_cons,
        List.sum_cons] at this ⊢
      rw [this, add_assoc]

theorem equalDurations_sum (total : ℚ) (M : ℕ) :
    (equalDurations total M).sum = total := by
  rw [equalDurations, List.sum_append, List.sum_replicate, nsmul_eq_mul]
  simp only [List.sum_cons, List.sum_nil]
  ring

theorem proportionalFront_length (total : ℚ) (M : ℕ) :
    (proportionalFront total M).length = M - 1 := by
  simp only [proportionalFront, List.length_map, List.length_range]

theorem proportionalDurations_sum (total : ℚ) (M : ℕ) :
    (proportionalDurations total M).sum = total := by
  rw [proportionalDurations, List.sum_append]
  simp only [List.sum_cons, List.sum_nil]
  ring

theorem equalDurations_length (total : ℚ) (M : ℕ) (h : 1 ≤ M) :
    (equalDurations total M).length = M := by
  cases M with
  | zero => exact absurd h (by decide)
  | succ n => simp [equalDurations]

theorem proportionalDurations_length (total : ℚ) (M : ℕ) (h : 1 ≤ M) :
    (proportionalDurations total M).length = M := by
  rw [proportionalDurations, List.length_append, proportionalFront_length]
  simp only [List.length_cons, List.length_nil]
  omega

theorem sliceDurations_sum (st : DistributionStrategy) (total : ℚ) (M : ℕ) :
    (sliceDurations st total M).sum = total := by
  cases st with
  | equal => exact equalDurations_sum total M
  | proportional => exact proportionalDurations_sum total M

theorem sliceDurations_length (st : DistributionStrategy) (total : ℚ) (M : ℕ)
    (h : 1 ≤ M) : (sliceDurations st total M).length = M := by
  cases st with
  | equal => exact equalDurations_length total M h
  | proportional => exact proportionalDurations_length total M h

theorem equalDurations_take (total : ℚ) (M : ℕ) (i : ℕ) (hi : i ≤ M - 1) :
    ((equalDurations total M).take i).sum = i * (total / M) := by
  have h1 : (equalDurations total M).take i
      = (List.replicate (M - 1) (total / M)).take i := by
    rw [equalDurations, List.take_append_of_le_length (by simpa using hi)]
  rw [h1, List.take_replicate, Nat.min_eq_left hi, List.sum_replicate, nsmul_eq_mul]

theorem planDistribution_ok (total : ℚ) (ids : List String) (st : DistributionStrategy)
    (hpos : 0 < total) (hne : ids ≠ []) :
    planDistribution total ids st =
      .ok (cumPlan 0 (ids.zip (sliceDurations st total ids.length))) := by
  rw [planDistribution, if_neg hne, if_neg (not_le.mpr hpos)]

theorem planZip_length (total : ℚ) (ids : List String) (st : DistributionStrategy)
    (hM : 1 ≤ ids.length) :
    (ids.zip (sliceDurations st total ids.length)).length = ids.length := by
  rw [List.length_zip, sliceDurations_length _ _ _ hM, Nat.min_self]

theorem planZip_snd (total : ℚ) (ids : List String) (st : DistributionStrategy)
    (hM : 1 ≤ ids.length) :
    (ids.zip (sliceDurations st total ids.length)).map Prod.snd
      = sliceDurations st total ids.length := by
  apply List.map_snd_zip
  rw [sliceDurations_length _ _ _ hM]

/-- Claim C1: for every ordered list of audio tracks with positive durations,
`AudioTimelineBuilder` returns a timeline whose `total_duration` is the sum
of the durations, whose `offset[i]` is the prefix sum of durations
`d1..d_{i-1}` (so `offset[0] = 0`), and whose tracks are kept in exactly the
caller-supplied order, never re-sorted. -/
theorem claim_C1_timeline_prefix_sum (ts : List AudioTrackRef)
    (hne : ts ≠ []) (hpos : ∀ t ∈ ts, 0 < t.duration_seconds) :
    ∃ tl, buildTimeline ts = .ok tl ∧
      tl.tracks = ts ∧
      tl.total_duration = (ts.map (fun t => t.duration_seconds)).sum ∧
      tl.offsets.length = ts.length ∧
      ∀ i, i < ts.length →
        tl.offsets.getD i 0 = ((ts.map (fun t => t.duration_seconds)).take i).sum := by
  have hany : ts.any (fun t => decide (t.duration_seconds ≤ 0)) = false := by
    rw [List.any_eq_false]
    intro t ht
    simpa using (hpos t ht).not_le
  refine ⟨⟨ts, prefixOffsets 0 (ts.map (fun t => t.duration_seconds)),
      (ts.map (fun t => t.duration_seconds)).sum⟩, ?_, rfl, rfl, ?_, ?_⟩
  · rw [buildTimeline, if_neg hne]
    simp [hany]
  · rw [prefixOffsets_length, List.length_map]
  · intro i hi
    have h2 : i < (ts.map (fun t => t.duration_seconds)).length := by
      rw [List.length_map]; exact hi
    have hlen : i < (prefixOffsets 0 (ts.map (fun t => t.duration_seconds))).length := by
      rw [prefixOffsets_length]; exact h2
    rw [List.getD_eq_getElem _ _ hlen]
    exact (prefixOffsets_getElem 0 _ i h2 hlen).trans (zero_add _)

/-- The spec §8 example tracks with durations [60, 90, 30]. -/
def sampleTracks : List AudioTrackRef :=
  [⟨"a1", "one.mp3", 60, 0⟩, ⟨"a2", "two.mp3", 90, 1⟩, ⟨"a3", "three.mp3", 30, 2⟩]

/-- Witness for C1 at the spec §8 example durations [60, 90, 30]. -/
theorem claim_C1_timeline_prefix_sum_witness :
    sampleTracks ≠ [] ∧ (∀ t ∈ sampleTracks, 0 < t.duration_seconds) ∧
      ∃ tl, buildTimeline sampleTracks = .ok tl ∧
        tl.tracks = sampleTracks ∧
        tl.total_duration = (sampleTracks.map (fun t => t.duration_seconds)).sum ∧
        tl.offsets.length = sampleTracks.length ∧
        ∀ i, i < sampleTracks.length →
          tl.offsets.getD i 0
            = ((sampleTracks.map (fun t => t.duration_seconds)).take i).sum :=
  ⟨by decide, by decide,
    claim_C1_timeline_prefix_sum sampleTracks (by decide) (by decide)⟩

theorem equalDurations_getElem_front (total : ℚ) (M i : ℕ) (hi : i < M - 1)
    (h2 : i < (equalDurations total M).length) :
    (equalDurations total M)[i] = total / M := by
  have hsucc := List.sum_take_succ (equalDurations total M) i h2
  rw [equalDurations_take total M i (by omega),
    equalDurations_take total M (i + 1) (by omega)] at hsucc
  have hx : (equalDurations total M)[i]
      = ((i + 1 : ℕ) : ℚ) * (total / M) - (i : ℚ) * (total / M) := by
    linarith
  rw [hx]
  push_cast
  ring

/-- Claim C2: the "equal" strategy gives every slice but the last duration
`total_duration / M`, the last slice absorbs the rounding remainder so the
sum is exactly `total_duration`, and `start_offset[i] = i × (total / M)`
computed as a running cumulative sum; in particular, for
`total_duration = 180` and `M = 4` every slice is 45 seconds, the starts are
`[0, 45, 90, 135]` and the slice durations sum to 180 exactly. -/
theorem claim_C2_equal_strategy (total : ℚ) (ids : List String)
    (hpos : 0 < total) (hne : ids ≠ []) :
    (∃ plan, planDistribution total ids .equal = .ok plan ∧
      plan.length = ids.length ∧
      (∀ i, i < ids.length - 1 →
        (plan.getD i default).slice_duration = total / ids.length) ∧
      (plan.map (fun s => s.slice_duration)).sum = total ∧
      (∀ i, i < ids.length →
        (plan.getD i default).start_offset = (i : ℚ) * (total / ids.length))) ∧
    planDistribution 180 ["img1", "img2", "img3", "img4"] .equal =
      .ok [⟨"img1", 0, 45⟩, ⟨"img2", 45, 45⟩, ⟨"img3", 90, 45⟩, ⟨"img4", 135, 45⟩] := by
  have hM : 1 ≤ ids.length := List.length_pos.mpr hne
  have hzlen := planZip_length total ids .equal hM
  have hzsnd := planZip_snd total ids .equal hM
  constructor
  · refine ⟨cumPlan 0 (ids.zip (sliceDurations .equal total ids.length)),
      planDistribution_ok total ids .equal hpos hne, ?_, ?_, ?_, ?_⟩
    · rw [cumPlan_length, hzlen]
    · intro i hi
      have hil : i < (ids.zip (sliceDurations .equal total ids.length)).length := by
        rw [hzlen]; omega
      have hplan : i < (cumPlan 0 (ids.zip (sliceDurations .equal total ids.length))).length := by
        rw [cumPlan_length]; exact hil
      have hid : i < ids.length := by omega
      have hd : i < (sliceDurations .equal total ids.length).length := by
        rw [sliceDurations_length _ _ _ hM]; omega
      rw [List.getD_eq_getElem _ _ hplan, cumPlan_getElem 0 _ i hil hplan]
      show ((ids.zip (sliceDurations .equal total ids.length))[i]).2 = total / ids.length
      rw [List.getElem_zip]
      exact equalDurations_getElem_front total ids.length i hi hd
    · rw [cumPlan_map_duration, hzsnd, sliceDurations_sum]
    · intro i hi
      have hil : i < (ids.zip (sliceDurations .equal total ids.length)).length := by
        rw [hzlen]; exact hi
      have hplan : i < (cumPlan 0 (ids.zip (sliceDurations .equal total ids.length))).length := by
        rw [cumPlan_length]; exact hil
      rw [List.getD_eq_getElem _ _ hplan, cumPlan_getElem 0 _ i hil hplan]
      show 0 + (((ids.zip (sliceDurations .equal total ids.length)).map Prod.snd).take i).sum
        = (i : ℚ) * (total / ids.length)
      rw [zero_add, hzsnd]
      exact equalDurations_take total ids.length i (by omega)
  · rw [planDistribution_ok 180 _ .equal (by norm_num) (by simp)]
    norm_num [cumPlan, sliceDurations, equalDurations, List.zip, List.zipWith,
      List.replicate]

/-- Witness for C2 at `total_duration = 180` and four image ids. -/
theorem claim_C2_equal_strategy_witness :
    (0 : ℚ) < 180 ∧ (["img1", "img2", "img3", "img4"] : List String) ≠ [] ∧
    ((∃ plan, planDistribution 180 ["img1", "img2", "img3", "img4"] .equal = .ok plan ∧
      plan.length = (["img1", "img2", "img3", "img4"] : List String).length ∧
      (∀ i, i < (["img1", "img2", "img3", "img4"] : List String).length - 1 →
        (plan.getD i default).slice_duration
          = 180 / (["img1", "img2", "img3", "img4"] : List String).length) ∧
      (plan.map (fun s => s.slice_duration)).sum = 180 ∧
      (∀ i, i < (["img1", "img2", "img3", "img4"] : List String).length →
        (plan.getD i default).start_offset
          = (i : ℚ) * (180 / (["img1", "img2", "img3", "img4"] : List String).length))) ∧
    planDistribution 180 ["img1", "img2", "img3", "img4"] .equal =
      .ok [⟨"img1", 0, 45⟩, ⟨"img2", 45, 45⟩, ⟨"img3", 90, 45⟩, ⟨"img4", 135, 45⟩]) :=
  ⟨by decide, by decide,
    claim_C2_equal_strategy 180 ["img1", "img2", "img3", "img4"] (by decide) (by decide)⟩

/-- Claim C3: for both strategies and every valid input, the plan partitions
`[0, total_duration]` with no gaps or overlaps: `start_offset[0] = 0`,
`start_offset[i+1] = start_offset[i] + slice_duration[i]`, and the slice
durations sum to `total_duration` (hence within the 1e-3 s epsilon), with
rounding absorbed into the final slice. -/
theorem claim_C3_partition (st : DistributionStrategy) (total : ℚ)
    (ids : List String) (hpos : 0 < total) (hne : ids ≠ []) :
    ∃ plan, planDistribution total ids st = .ok plan ∧
      plan.length = ids.length ∧
      (plan.getD 0 default).start_offset = 0 ∧
      (∀ i, i + 1 < plan.length →
        (plan.getD (i + 1) default).start_offset
          = (plan.getD i default).start_offset
            + (plan.getD i default).slice_duration) ∧
      (plan.map (fun s => s.slice_duration)).sum = total ∧
      |(plan.map (fun s => s.slice_duration)).sum - total| ≤ 1 / 1000 := by
  have hM : 1 ≤ ids.length := List.length_pos.mpr hne
  have hzlen := planZip_length total ids st hM
  have hzsnd := planZip_snd total ids st hM
  have hsum : ((cumPlan 0 (ids.zip (sliceDurations st total ids.length))).map
      (fun s => s.slice_duration)).sum = total := by
    rw [cumPlan_map_duration, hzsnd, sliceDurations_sum]
  refine ⟨cumPlan 0 (ids.zip (sliceDurations st total ids.length)),
    planDistribution_ok total ids st hpos hne, ?_, ?_, ?_, hsum, ?_⟩
  · rw [cumPlan_length, hzlen]
  · have h0l : 0 < (ids.zip (sliceDurations st total ids.length)).length := by
      rw [hzlen]; exact hM
    have h0p : 0 < (cumPlan 0 (ids.zip (sliceDurations st total ids.length))).length := by
      rw [cumPlan_length]; exact h0l
    rw [List.getD_eq_getElem _ _ h0p, cumPlan_getElem 0 _ 0 h0l h0p]
    show (0 : ℚ) + (((ids.zip (sliceDurations st total ids.length)).map
      Prod.snd).take 0).sum = 0
    simp
  · intro i hrec
    have hil1 : i + 1 < (ids.zip (sliceDurations st total ids.length)).length := by
      rw [cumPlan_length] at hrec; exact hrec
    have hil : i < (ids.zip (sliceDurations st total ids.length)).length := by omega
    have hp : i < (cumPlan 0 (ids.zip (sliceDurations st total ids.length))).length := by
      rw [cumPlan_length]; exact hil
    rw [List.getD_eq_getElem _ _ hrec, List.getD_eq_getElem _ _ hp,
      cumPlan_getElem 0 _ (i + 1) hil1 hrec, cumPlan_getElem 0 _ i hil hp]
    show 0 + (((ids.zip (sliceDurations st total ids.length)).map Prod.snd).take
        (i + 1)).sum
      = (0 + (((ids.zip (sliceDurations st total ids.length)).map Prod.snd).take
        i).sum) + ((ids.zip (sliceDurations st total ids.length))[i]).2
    have hsl : i < ((ids.zip (sliceDurations st total ids.length)).map
        Prod.snd).length := by
      rw [List.length_map]; exact hil
    rw [List.sum_take_succ _ i hsl, List.getElem_map, zero_add, zero_add]
  · rw [hsum, sub_self, abs_zero]
    norm_num

/-- Witness for C3 with the proportional strategy, three image ids and a
180-second timeline. -/
theorem claim_C3_partition_witness :
    (0 : ℚ) < 180 ∧ (["img1", "img2", "img3"] : List String) ≠ [] ∧
    ∃ plan, planDistribution 180 ["img1", "img2", "img3"] .proportional = .ok plan ∧
      plan.length = (["img1", "img2", "img3"] : List String).length ∧
      (plan.getD 0 default).start_offset = 0 ∧
      (∀ i, i + 1 < plan.length →
        (plan.getD (i + 1) default).start_offset
          = (plan.getD i default).start_offset
            + (plan.getD i default).slice_duration) ∧
      (plan.map (fun s => s.slice_duration)).sum = 180 ∧
      |(plan.map (fun s => s.slice_duration)).sum - 180| ≤ 1 / 1000 :=
  ⟨by decide, by decide,
    claim_C3_partition .proportional 180 ["img1", "img2", "img3"]
      (by decide) (by decide)⟩

/-- Claim C4: `AudioTimelineBuilder` fails with `ValidationError` exactly
when its input list is empty or some duration is ≤ 0, and
`ImageDistributionPlanner` fails with `ValidationError` exactly when
`M = 0` or `total_duration ≤ 0`; on every other input both operations
succeed. -/
theorem claim_C4_validation_errors (ts : List AudioTrackRef) (total : ℚ)
    (ids : List String) (st : DistributionStrategy) :
    ((∃ msg, buildTimeline ts = .error (.validation msg)) ↔
      (ts = [] ∨ ∃ t ∈ ts, t.duration_seconds ≤ 0)) ∧
    (¬(ts = [] ∨ ∃ t ∈ ts, t.duration_seconds ≤ 0) →
      ∃ tl, buildTimeline ts = .ok tl) ∧
    ((∃ msg, planDistribution total ids st = .error (.validation msg)) ↔
      (ids.length = 0 ∨ total ≤ 0)) ∧
    (¬(ids.length = 0 ∨ total ≤ 0) →
      ∃ plan, planDistribution total ids st = .ok plan) := by
  have e1 : ts = [] →
      buildTimeline ts = .error (.validation "no audio tracks supplied") := by
    intro h; rw [buildTimeline, if_pos h]
  have e2 : ts ≠ [] → (∃ t ∈ ts, t.duration_seconds ≤ 0) →
      buildTimeline ts = .error (.validation "non-positive track duration") := by
    intro h1 h2
    have hany : ts.any (fun t => decide (t.duration_seconds ≤ 0)) = true := by
      rw [List.any_eq_true]
      obtain ⟨t, ht, hle⟩ := h2
      exact ⟨t, ht, by simpa using hle⟩
    rw [buildTimeline, if_neg h1]
    simp [hany]
  have e3 : ts ≠ [] → ¬(∃ t ∈ ts, t.duration_seconds ≤ 0) →
      ∃ tl, buildTimeline ts = .ok tl := by
    intro h1 h2
    have hany : ts.any (fun t => decide (t.duration_seconds ≤ 0)) = false := by
      rw [List.any_eq_false]
      intro t ht
      simp only [decide_eq_true_eq]
      exact fun hle => h2 ⟨t, ht, hle⟩
    refine ⟨⟨ts, prefixOffsets 0 (ts.map (fun t => t.duration_seconds)),
      (ts.map (fun t => t.duration_seconds)).sum⟩, ?_⟩
    rw [buildTimeline, if_neg h1]
    simp [hany]
  have p1 : ids = [] →
      planDistribution total ids st
        = .error (.validation "no approved images selected") := by
    intro h; rw [planDistribution, if_pos h]
  have p2 : ids ≠ [] → total ≤ 0 →
      planDistribution total ids st
        = .error (.validation "non-positive total duration") := by
    intro h1 h2; rw [planDistribution, if_neg h1, if_pos h2]
  refine ⟨?_, ?_, ?_, ?_⟩
  · constructor
    · rintro ⟨msg, hmsg⟩
      by_cases h1 : ts = []
      · exact Or.inl h1
      · by_cases h2 : ∃ t ∈ ts, t.duration_seconds ≤ 0
        · exact Or.inr h2
        · obtain ⟨tl, htl⟩ := e3 h1 h2
          rw [htl] at hmsg
          exact absurd hmsg (by simp)
    · rintro (h | h)
      · exact ⟨_, e1 h⟩
      · by_cases h1 : ts = []
        · exact ⟨_, e1 h1⟩
        · exact ⟨_, e2 h1 h⟩
  · intro h
    obtain ⟨h1, h2⟩ := not_or.mp h
    exact e3 h1 h2
  · constructor
    · rintro ⟨msg, hmsg⟩
      by_cases h1 : ids = []
      · exact Or.inl (by rw [h1]; rfl)
      · by_cases h2 : total ≤ 0
        · exact Or.inr h2
        · rw [planDistribution_ok total ids st (not_le.mp h2) h1] at hmsg
          exact absurd hmsg (by simp)
    · rintro (h | h)
      · exact ⟨_, p1 (List.length_eq_zero.mp h)⟩
      · by_cases h1 : ids = []
        · exact ⟨_, p1 h1⟩
        · exact ⟨_, p2 h1 h⟩
  · intro h
    obtain ⟨h1, h2⟩ := not_or.mp h
    exact ⟨_, planDistribution_ok total ids st (not_le.mp h2)
      (fun he => h1 (by rw [he]; rfl))⟩

/-- Witness for C4: the empty track list fails with a `ValidationError`, and
a valid input (one track of 60 s, one image, 60 s of audio) succeeds. -/
theorem claim_C4_validation_errors_witness :
    (∃ msg, buildTimeline [] = .error (.validation msg)) ∧
    (∃ plan, planDistribution 60 ["img1"] .equal = .ok plan) :=
  ⟨((claim_C4_validation_errors [] 60 ["img1"] .equal).1).mpr (Or.inl rfl),
    ((claim_C4_validation_errors [] 60 ["img1"] .equal).2.2.2) (by decide)⟩

/-! ### AssetApprovalRegistry (spec §3, §4.3) -/

/-- The image lifecycle status of spec §3:
`status ∈ {preview, approved, rejected}`. -/
inductive ImageStatus where
  | preview
  | approved
  | rejected
deriving Repr, DecidableEq

/-- The approval registry's record store: preview/approved/rejected status
per image id (the persistence layer of §1 is a key-value record store). -/
structure ApprovalRegistry where
  records : List (String × ImageStatus)
deriving Repr, DecidableEq

/-- Modelled from the spec: `approve(preview_id)` of AssetApprovalRegistry
(§4.3), missing from the excerpt.  Fails with `NotFoundError` when no record
exists, with `AlreadyApprovedError` / `AlreadyRejectedError` when the record
is not currently `preview`; otherwise commits the record as `approved`. -/
def approve (reg : ApprovalRegistry) (pid : String) :
    Except CoreError ApprovalRegistry :=
  match reg.records.lookup pid with
  | none => .error (.notFound pid)
  | some .approved => .error (.alreadyApproved pid)
  | some .rejected => .error (.alreadyRejected pid)
  | some .preview =>
      .ok ⟨reg.records.map (fun r => if r.1 = pid then (r.1, .approved) else r)⟩

theorem lookup_map_setApproved (records : List (String × ImageStatus))
    (pid : String) (st : ImageStatus) (h : records.lookup pid = some st) :
    (records.map (fun r => if r.1 = pid then (r.1, ImageStatus.approved) else r)).lookup
      pid = some .approved := by
  induction records with
  | nil => simp at h
  | cons r rest ih =>
    obtain ⟨k, v⟩ := r
    simp only [List.map_cons]
    by_cases hr : k = pid
    · subst hr
      rw [if_pos rfl]
      simp [List.lookup]
    · rw [if_neg hr]
      have hb : (pid == k) = false := beq_eq_false_iff_ne.mpr (Ne.symm hr)
      simp only [List.lookup, hb] at h ⊢
      exact ih h

/-- Claim C5: `approve(preview_id)` fails with `NotFoundError` when no
record exists and with `AlreadyApprovedError` / `AlreadyRejectedError` when
the record is not in `preview` status; after a successful approval the
second approval of the same id fails with the conflict error and the asset
stays in its first resolved state (`approved`), never double-committed. -/
theorem claim_C5_approve_errors (reg : ApprovalRegistry) (pid : String) :
    (reg.records.lookup pid = none →
      approve reg pid = .error (.notFound pid)) ∧
    (reg.records.lookup pid = some .approved →
      approve reg pid = .error (.alreadyApproved pid)) ∧
    (reg.records.lookup pid = some .rejected →
      approve reg pid = .error (.alreadyRejected pid)) ∧
    (reg.records.lookup pid = some .preview →
      ∃ reg2, approve reg pid = .ok reg2 ∧
        reg2.records.lookup pid = some .approved ∧
        approve reg2 pid = .error (.alreadyApproved pid)) := by
  refine ⟨?_, ?_, ?_, ?_⟩
  · intro h; rw [approve, h]
  · intro h; rw [approve, h]
  · intro h; rw [approve, h]
  · intro h
    refine ⟨⟨reg.records.map (fun r => if r.1 = pid then (r.1, .approved) else r)⟩,
      by rw [approve, h], lookup_map_setApproved reg.records pid _ h, ?_⟩
    rw [approve, lookup_map_setApproved reg.records pid _ h]

/-- Witness for C5: a one-record registry holding a preview image. -/
theorem claim_C5_approve_errors_witness :
    (ApprovalRegistry.mk [("p1", ImageStatus.preview)]).records.lookup "p1"
        = some .preview ∧
      ∃ reg2, approve ⟨[("p1", ImageStatus.preview)]⟩ "p1" = .ok reg2 ∧
        reg2.records.lookup "p1" = some .approved ∧
        approve reg2 "p1" = .error (.alreadyApproved "p1") :=
  ⟨rfl, (claim_C5_approve_errors ⟨[("p1", ImageStatus.preview)]⟩ "p1").2.2.2 rfl⟩

/-! ### Orphan cleanup (spec §4.3) -/

/-- Whether an image status is `approved`. -/
def ImageStatus.isApproved : ImageStatus → Bool
  | .approved => true
  | _ => false

/-- A durable image-asset record together with the asset store's existence
check for its backing file (the store is external; spec §1). -/
structure ImageRecord where
  id : String
  status : ImageStatus
  fileExists : Bool
deriving Repr, DecidableEq

/-- An orphan per the glossary: an approved record whose backing file no
longer exists in storage. -/
def ImageRecord.isOrphan (r : ImageRecord) : Bool :=
  r.status.isApproved && !r.fileExists

/-- The result shape of `cleanup_orphans` as declared by the frontend API
client (`cleanupOrphanedImages` in `src/frontend/src/services/api.ts`):
{orphaned_removed, valid_remaining, orphaned_details}. -/
structure CleanupResult where
  orphaned_removed : ℕ
  valid_remaining : ℕ
  orphaned_details : List String
deriving Repr, DecidableEq

/-- Modelled from the spec: `cleanup_orphans(project_id)` of §4.3, missing
from the excerpt.  Enumerates the approved records, deletes every record
whose backing file is missing, and returns the counts plus the purged ids;
the second component is the record set after cleanup. -/
def cleanupOrphans (records : List ImageRecord) :
    CleanupResult × List ImageRecord :=
  (⟨((records.filter (fun r => r.status.isApproved)).filter
        (fun r => !r.fileExists)).length,
    ((records.filter (fun r => r.status.isApproved)).filter
        (fun r => r.fileExists)).length,
    ((records.filter (fun r => r.status.isApproved)).filter
        (fun r => !r.fileExists)).map (fun r => r.id)⟩,
    records.filter (fun r => !r.isOrphan))

theorem cleanup_kept_noOrphan (records : List ImageRecord) :
    ∀ r ∈ (cleanupOrphans records).2, r.isOrphan = false := by
  intro r hr
  have := (List.mem_filter.mp hr).2
  simpa using this

theorem noOrphan_cleanup (l : List ImageRecord)
    (h : ∀ r ∈ l, r.isOrphan = false) :
    cleanupOrphans l
      = (⟨0, (l.filter (fun r => r.status.isApproved)).length, []⟩, l) := by
  have hfe : ∀ r ∈ l, r.status.isApproved = true → r.fileExists = true := by
    intro r hr ha
    have h3 := h r hr
    rw [ImageRecord.isOrphan, ha] at h3
    simpa using h3
  have horph : (l.filter (fun r => r.status.isApproved)).filter
      (fun r => !r.fileExists) = [] := by
    rw [List.filter_eq_nil]
    intro r hr
    have h1 : r.status.isApproved = true := (List.mem_filter.mp hr).2
    have h2 := hfe r (List.mem_filter.mp hr).1 h1
    simp [h2]
  have hvalid : (l.filter (fun r => r.status.isApproved)).filter
      (fun r => r.fileExists) = l.filter (fun r => r.status.isApproved) := by
    rw [List.filter_eq_self]
    intro r hr
    exact hfe r (List.mem_filter.mp hr).1 (List.mem_filter.mp hr).2
  have hkept : l.filter (fun r => !r.isOrphan) = l := by
    rw [List.filter_eq_self]
    intro r hr
    simp [h r hr]
  rw [cleanupOrphans, horph, hvalid, hkept]
  rfl

/-- The spec §8 example: five approved images of which two backing files
are missing. -/
def sampleCleanupRecords : List ImageRecord :=
  [⟨"g1", .approved, true⟩, ⟨"g2", .approved, true⟩, ⟨"g3", .approved, true⟩,
    ⟨"g4", .approved, false⟩, ⟨"g5", .approved, false⟩]

/-- Claim C8: `cleanup_orphans` is idempotent — a second immediate call
removes zero additional orphans and leaves `valid_remaining` and the record
set unchanged; on the spec §8 example (5 approved images, 2 backing files
missing) the first call returns {orphaned_removed: 2, valid_remaining: 3}
and the second returns {orphaned_removed: 0, valid_remaining: 3}. -/
theorem claim_C8_cleanup_idempotent :
    (∀ records : List ImageRecord,
      (cleanupOrphans (cleanupOrphans records).2).1.orphaned_removed = 0 ∧
      (cleanupOrphans (cleanupOrphans records).2).1.valid_remaining
        = (cleanupOrphans records).1.valid_remaining ∧
      (cleanupOrphans (cleanupOrphans records).2).2
        = (cleanupOrphans records).2) ∧
    (cleanupOrphans sampleCleanupRecords).1
      = ⟨2, 3, ["g4", "g5"]⟩ ∧
    (cleanupOrphans (cleanupOrphans sampleCleanupRecords).2).1
      = ⟨0, 3, []⟩ := by
  refine ⟨?_, by decide, by decide⟩
  intro records
  have hno := cleanup_kept_noOrphan records
  rw [noOrphan_cleanup _ hno]
  refine ⟨rfl, ?_, rfl⟩
  show ((cleanupOrphans records).2.filter (fun r => r.status.isApproved)).length
    = (cleanupOrphans records).1.valid_remaining
  have hmerge : ((records.filter (fun r => !r.isOrphan)).filter
      (fun r => r.status.isApproved))
      = records.filter (fun r => r.status.isApproved && !r.isOrphan) := by
    rw [List.filter_filter]
  have hpt : ∀ r : ImageRecord,
      (r.status.isApproved && !r.isOrphan)
        = ((fun s : ImageRecord => s.fileExists) r
            && (fun s : ImageRecord => s.status.isApproved) r) := by
    intro r
    cases hs : r.status <;> cases hf : r.fileExists <;>
      simp [ImageRecord.isOrphan, ImageStatus.isApproved, hs, hf]
  show ((records.filter (fun r => !r.isOrphan)).filter
      (fun r => r.status.isApproved)).length
    = ((records.filter (fun r => r.status.isApproved)).filter
      (fun r => r.fileExists)).length
  rw [hmerge, List.filter_filter, List.filter_congr (fun r _ => hpt r)]

/-! ### CompositionJobScheduler (spec §3, §4.4) -/

/-- Job states of spec §4.4:
`queued → running → {succeeded | failed | cancelled}`. -/
inductive JobStatus where
  | queued
  | running
  | succeeded
  | failed
  | cancelled
deriving Repr, DecidableEq

/-- Whether a status is terminal (spec §3: terminal once in
{succeeded, failed, cancelled}). -/
def JobStatus.isTerminal : JobStatus → Bool
  | .succeeded => true
  | .failed => true
  | .cancelled => true
  | _ => false

/-- Allowed single-job transitions of the §4.4 state machine: a queued job
starts running or is cancelled; a running job succeeds, fails or is
cancelled; terminal states have no outgoing transitions. -/
def JobStatus.canStep : JobStatus → JobStatus → Bool
  | .queued, .running => true
  | .queued, .cancelled => true
  | .running, .succeeded => true
  | .running, .failed => true
  | .running, .cancelled => true
  | _, _ => false

/-- A composition job record (spec §3, reduced to the fields the scheduler
invariant concerns). -/
structure Job where
  id : ℕ
  project_id : String
  status : JobStatus
deriving Repr, DecidableEq

/-- The scheduler's job table plus a fresh-id counter. -/
structure Scheduler where
  jobs : List Job
  nextId : ℕ
deriving Repr, DecidableEq

/-- Whether a project currently has a non-terminal (queued or running)
job. -/
def hasNonTerminal (s : Scheduler) (proj : String) : Bool :=
  s.jobs.any (fun j => j.project_id == proj && !j.status.isTerminal)

/-- Modelled from the spec: `submit(project_id, settings)` of §4.4, missing
from the excerpt.  Fails with `ConflictError` if a non-terminal job already
exists for the project; otherwise creates a `queued` job record. -/
def submit (s : Scheduler) (proj : String) : Except CoreError (Scheduler × ℕ) :=
  if hasNonTerminal s proj then
    .error (.conflict proj)
  else
    .ok (⟨s.jobs ++ [⟨s.nextId, proj, .queued⟩], s.nextId + 1⟩, s.nextId)

/-- Updating one job's status in the table. -/
def setJobStatus (s : Scheduler) (jid : ℕ) (st : JobStatus) : Scheduler :=
  ⟨s.jobs.map (fun j => if j.id = jid then ⟨j.id, j.project_id, st⟩ else j),
    s.nextId⟩

/-- Modelled from the spec: the scheduler operations of §4.4 (missing from
the excerpt) as a step relation — a successful submission, or a status
change of one job along an allowed state-machine transition. -/
inductive SchedOp : Scheduler → Scheduler → Prop where
  | submitOk (s : Scheduler) (proj : String) (s2 : Scheduler) (jid : ℕ) :
      submit s proj = .ok (s2, jid) → SchedOp s s2
  | transition (s : Scheduler) (jid : ℕ) (st : JobStatus) :
      (∀ j ∈ s.jobs, j.id = jid → j.status.canStep st = true) →
      SchedOp s (setJobStatus s jid st)

/-- The number of non-terminal jobs a project has. -/
def nonTermCount (s : Scheduler) (proj : String) : ℕ :=
  (s.jobs.filter (fun j => j.project_id == proj && !j.status.isTerminal)).length

/-- The §3 invariant: at most one non-terminal job per project. -/
def SchedInv (s : Scheduler) : Prop :=
  ∀ proj, nonTermCount s proj ≤ 1

theorem hasNonTerminal_false_count (s : Scheduler) (proj : String)
    (h : hasNonTerminal s proj = false) : nonTermCount s proj = 0 := by
  rw [nonTermCount, List.length_eq_zero, List.filter_eq_nil]
  rw [hasNonTerminal, List.any_eq_false] at h
  intro j hj
  simpa using h j hj

theorem submit_count (s : Scheduler) (proj : String) (s2 : Scheduler) (jid : ℕ)
    (h : submit s proj = .ok (s2, jid)) (q : String) :
    nonTermCount s2 q ≤ max 1 (nonTermCount s q) := by
  rw [submit] at h
  by_cases hc : hasNonTerminal s proj
  · rw [if_pos hc] at h; exact absurd h (by simp)
  · rw [if_neg hc] at h
    have h2 := Except.ok.inj h
    have hs2 : s2 = ⟨s.jobs ++ [⟨s.nextId, proj, .queued⟩], s.nextId + 1⟩ :=
      (congrArg Prod.fst h2).symm
    subst hs2
    rw [nonTermCount]
    simp only [List.filter_append, List.length_append]
    by_cases hq : proj = q
    · subst hq
      have h0 : nonTermCount s proj = 0 :=
        hasNonTerminal_false_count s proj (by simpa using hc)
      rw [nonTermCount] at h0
      rw [h0]
      have hsingle : (List.filter
          (fun j => j.project_id == proj && !j.status.isTerminal)
          [(⟨s.nextId, proj, .queued⟩ : Job)]).length = 1 := by
        simp [JobStatus.isTerminal]
      rw [hsingle]
      have := le_max_left 1 (nonTermCount s proj)
      omega
    · have hz : (List.filter (fun j => j.project_id == q && !j.status.isTerminal)
          [(⟨s.nextId, proj, .queued⟩ : Job)]).length = 0 := by
        simp [hq]
      rw [hz, nonTermCount]
      have := le_max_right 1 ((List.filter
        (fun j => j.project_id == q && !j.status.isTerminal) s.jobs).length)
      omega

theorem setJobStatus_count (s : Scheduler) (jid : ℕ) (st : JobStatus)
    (hstep : ∀ j ∈ s.jobs, j.id = jid → j.status.canStep st = true) (q : String) :
    nonTermCount (setJobStatus s jid st) q ≤ nonTermCount s q := by
  rw [nonTermCount, nonTermCount, setJobStatus]
  rw [← List.countP_eq_length_filter, ← List.countP_eq_length_filter,
    List.countP_map]
  apply List.countP_mono_left
  intro j hj
  simp only [Function.comp]
  by_cases hid : j.id = jid
  · have hcan := hstep j hj hid
    rw [if_pos hid]
    intro hp
    have hnt : st.isTerminal = false := by
      by_contra hterm
      simp only [Bool.not_eq_false] at hterm
      simp [hterm] at hp
    have : j.status = .queued := by
      cases hjs : j.status <;> cases hst2 : st <;>
        rw [hjs, hst2] at hcan <;> rw [hst2] at hnt <;>
          first
          | rfl
          | exact absurd hcan (by decide)
          | exact absurd hnt (by decide)
    simp only [Bool.and_eq_true] at hp ⊢
    exact ⟨hp.1, by rw [this]; rfl⟩
  · rw [if_neg hid]
    exact fun hp => hp

/-- Claim C6: at most one non-terminal job per project — the invariant is
preserved by every scheduler operation, `submit` fails with a
`ConflictError` exactly when the project already has a queued/running job,
and once every job of the project is terminal a new submission succeeds. -/
theorem claim_C6_one_nonterminal_job (s s2 : Scheduler) (proj : String) :
    (SchedInv s → SchedOp s s2 → SchedInv s2) ∧
    ((∃ e, submit s proj = .error e) ↔ hasNonTerminal s proj = true) ∧
    (hasNonTerminal s proj = true → submit s proj = .error (.conflict proj)) ∧
    ((∀ j ∈ s.jobs, j.project_id = proj → j.status.isTerminal = true) →
      ∃ s3 jid, submit s proj = .ok (s3, jid)) := by
  refine ⟨?_, ?_, ?_, ?_⟩
  · intro hinv hop q
    cases hop with
    | submitOk proj2 sNew jid h =>
      have h1 := submit_count s proj2 s2 jid h q
      have h2 := hinv q
      omega
    | transition jid st hstep =>
      exact le_trans (setJobStatus_count s jid st hstep q) (hinv q)
  · constructor
    · rintro ⟨e, he⟩
      by_contra hc
      simp only [Bool.not_eq_true] at hc
      rw [submit, if_neg (by simp [hc])] at he
      exact absurd he (by simp)
    · intro hc
      exact ⟨.conflict proj, by rw [submit, if_pos (by simp [hc])]⟩
  · intro hc
    rw [submit, if_pos (by simp [hc])]
  · intro hall
    have hc : hasNonTerminal s proj = false := by
      rw [hasNonTerminal, List.any_eq_false]
      intro j hj
      simp only [Bool.and_eq_true, Bool.not_eq_true, beq_iff_eq, not_and]
      intro hpj
      rw [hall j hj hpj]
      rfl
    exact ⟨_, s.nextId, by rw [submit, if_neg (by simp [hc])]⟩

/-- Witness for C6: an empty scheduler satisfies the invariant, a
submission step preserves it, and submitting to a fresh project
succeeds. -/
theorem claim_C6_one_nonterminal_job_witness :
    SchedInv ⟨[⟨0, "p1", .queued⟩], 1⟩ ∧
    (∃ s3 jid, submit ⟨[], 0⟩ "p1" = .ok (s3, jid)) ∧
    ((∃ e, submit ⟨[⟨0, "p1", .queued⟩], 1⟩ "p1" = .error e) ↔
      hasNonTerminal ⟨[⟨0, "p1", .queued⟩], 1⟩ "p1" = true) := by
  refine ⟨?_, ?_, (claim_C6_one_nonterminal_job ⟨[⟨0, "p1", .queued⟩], 1⟩
    ⟨[], 0⟩ "p1").2.1⟩
  · have h0 : SchedInv ⟨[], 0⟩ := by
      intro q
      rw [nonTermCount]
      simp
    exact (claim_C6_one_nonterminal_job ⟨[], 0⟩ ⟨[⟨0, "p1", .queued⟩], 1⟩ "p1").1
      h0 (SchedOp.submitOk ⟨[], 0⟩ "p1" ⟨[⟨0, "p1", .queued⟩], 1⟩ 0 rfl)
  · exact (claim_C6_one_nonterminal_job ⟨[], 0⟩ ⟨[], 0⟩ "p1").2.2.2
      (by intro j hj; simp at hj)

/-! ### Cancellation semantics of a single job (spec §4.4, §4.5) -/

/-- One job's dynamic state: machine status, the cooperative cancellation
flag, and the result file reference. -/
structure JobState where
  status : JobStatus
  cancelRequested : Bool
  result : Option String
deriving Repr, DecidableEq

/-- Modelled from the spec: the cancellable job lifecycle of §4.4/§4.5
(scheduler/pipeline implementation missing from the excerpt).  `cancel` sets
the cooperative flag — a queued job transitions directly to `cancelled`; a
running job's flag is observed between stages, and at the next checkpoint
the job transitions to `cancelled` with no result; completion and failure
are only observed at checkpoints where no cancellation is pending. -/
inductive JStep : JobState → JobState → Prop where
  | start (r : Option String) :
      JStep ⟨.queued, false, r⟩ ⟨.running, false, r⟩
  | cancelQueued (c : Bool) (r : Option String) :
      JStep ⟨.queued, c, r⟩ ⟨.cancelled, true, none⟩
  | cancelRunning (r : Option String) :
      JStep ⟨.running, false, r⟩ ⟨.running, true, r⟩
  | observeCancel (r : Option String) :
      JStep ⟨.running, true, r⟩ ⟨.cancelled, true, none⟩
  | stageAdvance (r : Option String) :
      JStep ⟨.running, false, r⟩ ⟨.running, false, r⟩
  | complete (out : String) :
      JStep ⟨.running, false, none⟩ ⟨.succeeded, false, some out⟩
  | failRun (r : Option String) :
      JStep ⟨.running, false, r⟩ ⟨.failed, false, none⟩

theorem jstep_after_cancel (a b : JobState) (h : JStep a b)
    (hc : a.cancelRequested = true) :
    b.cancelRequested = true ∧ b.status = .cancelled := by
  cases h <;> simp_all

/-- Claim C7: once cancel has been called, no reachable later state is
`succeeded` — a queued job transitions directly to `cancelled`, a running
job with the flag set transitions to `cancelled` at the next checkpoint
(its only successor), and any step into `cancelled` leaves no result
reference. -/
theorem claim_C7_cancel_never_succeeds (c : Bool) (r : Option String)
    (js js2 : JobState) :
    JStep ⟨.queued, c, r⟩ ⟨.cancelled, true, none⟩ ∧
    (JStep ⟨.running, true, r⟩ js2 → js2 = ⟨.cancelled, true, none⟩) ∧
    (js.cancelRequested = true → js.status ≠ .succeeded →
      Relation.ReflTransGen JStep js js2 → js2.status ≠ .succeeded) ∧
    (JStep js js2 → js2.status = .cancelled → js2.result = none) := by
  refine ⟨JStep.cancelQueued c r, ?_, ?_, ?_⟩
  · intro h
    cases h <;> rfl
  · intro hflag hstat hreach
    have key : js2.cancelRequested = true ∧ js2.status ≠ .succeeded := by
      induction hreach with
      | refl => exact ⟨hflag, hstat⟩
      | tail hsteps hstep ih =>
        have h2 := jstep_after_cancel _ _ hstep ih.1
        refine ⟨h2.1, ?_⟩
        rw [h2.2]
        decide
    exact key.2
  · intro hstep hcanc
    cases hstep <;> simp_all

/-- Witness for C7: a running job with cancellation requested reaches the
cancelled state by the next checkpoint and is never `succeeded`. -/
theorem claim_C7_cancel_never_succeeds_witness :
    (⟨.running, true, none⟩ : JobState).cancelRequested = true ∧
    (⟨.running, true, none⟩ : JobState).status ≠ .succeeded ∧
    (⟨.cancelled, true, none⟩ : JobState).status ≠ .succeeded :=
  ⟨rfl, by decide,
    (claim_C7_cancel_never_succeeds true none ⟨.running, true, none⟩
      ⟨.cancelled, true, none⟩).2.2.1 rfl (by decide)
      (Relation.ReflTransGen.single (JStep.observeCancel none))⟩

/-! ### apiRequest (src/frontend/src/services/api.ts, lines 5-31) -/

/-- A fetch response as `apiRequest` consumes it: the `ok` flag, the HTTP
status code, the body text (`await response.text()`), and the outcome of
`response.json()` on the same body — which rejects when the body is not
valid JSON. -/
structure FetchResponse (J : Type) where
  ok : Bool
  status : ℕ
  bodyText : String
  jsonResult : Except String J

/-- A rejection coming out of `apiRequest`: the `ApiError(status, message)`
it throws itself on a non-ok response (api.ts lines 5-10, 26-28), or the
JSON parse error propagated from `response.json()` (line 30). -/
inductive ApiFailure where
  | apiError (status : ℕ) (message : String)
  | jsonParseFailure (message : String)
deriving Repr, DecidableEq

/-- Embedded from `apiRequest` (api.ts lines 12-31): when the response is
not ok it throws `ApiError(response.status, await response.text())`;
otherwise it returns `response.json()`, whose rejection propagates to the
caller. -/
def apiRequest {J : Type} (r : FetchResponse J) : Except ApiFailure J :=
  if !r.ok then
    .error (.apiError r.status r.bodyText)
  else
    match r.jsonResult with
    | .ok j => .ok j
    | .error e => .error (.jsonParseFailure e)

/-- Counterexample for C9: an ok (HTTP 200) response whose body is empty is
rejected by `response.json()`, so `apiRequest` raises even though
`response.ok` is true — refuting "raises an error only if the response is
not ok" (and the raised value is not an `ApiError`). -/
theorem claim_C9_counterexample :
    ¬ (∀ (J : Type) (r : FetchResponse J),
        (∃ e, apiRequest r = .error e) → r.ok = false) := by
  intro h
  have := h Unit ⟨true, 200, "", .error "Unexpected end of JSON input"⟩
    ⟨.jsonParseFailure "Unexpected end of JSON input", rfl⟩
  simp at this

/-- Claim C9 (amended): `apiRequest` throws an `ApiError` if and only if
the response is not ok, and that error carries the HTTP status code and the
body text; on an ok response it resolves with the parsed JSON body when the
body parses, and otherwise propagates the JSON parse rejection (which is
not an `ApiError`). -/
theorem claim_C9_amended_apiRequest (J : Type) (r : FetchResponse J) :
    ((∃ st m, apiRequest r = .error (.apiError st m)) ↔ r.ok = false) ∧
    (r.ok = false → apiRequest r = .error (.apiError r.status r.bodyText)) ∧
    (∀ j, r.ok = true → r.jsonResult = .ok j → apiRequest r = .ok j) ∧
    (∀ e, r.ok = true → r.jsonResult = .error e →
      apiRequest r = .error (.jsonParseFailure e)) := by
  refine ⟨?_, ?_, ?_, ?_⟩
  · constructor
    · rintro ⟨st, m, hm⟩
      by_contra hok
      simp only [Bool.not_eq_false] at hok
      rw [apiRequest, hok] at hm
      cases hj : r.jsonResult <;> rw [hj] at hm <;> simp at hm
    · intro hok
      exact ⟨r.status, r.bodyText, by rw [apiRequest, hok]; rfl⟩
  · intro hok
    rw [apiRequest, hok]
    rfl
  · intro j hok hj
    rw [apiRequest, hok, hj]
    rfl
  · intro e hok he
    rw [apiRequest, hok, he]
    rfl

/-- Witness for C9 (amended): a 404 response with body "Not Found" raises
`ApiError 404 "Not Found"`. -/
theorem claim_C9_amended_apiRequest_witness :
    (FetchResponse.mk false 404 "Not Found" (Except.ok ()) : FetchResponse Unit).ok
        = false ∧
      apiRequest (⟨false, 404, "Not Found", .ok ()⟩ : FetchResponse Unit)
        = .error (.apiError 404 "Not Found") :=
  ⟨rfl, (claim_C9_amended_apiRequest Unit ⟨false, 404, "Not Found", .ok ()⟩).2.1 rfl⟩

/-! ### addAudioFile in the project store (src/unnamed/part_006, lines 75-77) -/

/-- An audio file record as held by the Zustand project store
(`AudioFile` in src/frontend/src/types; only `id` matters to
`addAudioFile`). -/
structure AudioFile where
  id : String
  project_id : String
  filename : String
  duration_seconds : ℚ
deriving Repr, DecidableEq

/-- Embedded from `addAudioFile` in the project store (src/unnamed/part_006
lines 75-77): the new list is
`[...state.audioFiles.filter(a => a.id !== audioFile.id), audioFile]`. -/
def addAudioFile (audioFile : AudioFile) (audioFiles : List AudioFile) :
    List AudioFile :=
  (audioFiles.filter (fun a => a.id != audioFile.id)) ++ [audioFile]

/-- Claim C10: `addAudioFile` preserves pairwise-distinct ids (an existing
entry with the incoming id is replaced, never duplicated) and is
idempotent: applying it twice equals applying it once. -/
theorem claim_C10_addAudioFile (f : AudioFile) (files : List AudioFile) :
    ((files.map (fun a => a.id)).Nodup →
      ((addAudioFile f files).map (fun a => a.id)).Nodup) ∧
    addAudioFile f (addAudioFile f files) = addAudioFile f files := by
  constructor
  · intro hnd
    rw [addAudioFile, List.map_append]
    simp only [List.map_cons, List.map_nil]
    rw [List.nodup_append]
    refine ⟨?_, List.nodup_singleton _, ?_⟩
    · exact List.Nodup.sublist (List.Sublist.map _ (List.filter_sublist _)) hnd
    · intro a ha
      simp only [List.mem_map] at ha
      obtain ⟨b, hb, hab⟩ := ha
      have hbne : (b.id != f.id) = true := (List.mem_filter.mp hb).2
      simp only [bne_iff_ne] at hbne
      simp [← hab, hbne]
  · simp only [addAudioFile, List.filter_append]
    have h1 : List.filter (fun a => a.id != f.id) [f] = [] := by simp
    rw [h1, List.append_nil, List.filter_filter]
    congr 1
    apply List.filter_congr
    intro a _
    rw [Bool.and_self]

/-- Witness for C10 on a one-element store with a distinct incoming id. -/
theorem claim_C10_addAudioFile_witness :
    (([⟨"a1", "p", "one.mp3", 60⟩] : List AudioFile).map (fun a => a.id)).Nodup ∧
    ((addAudioFile ⟨"a2", "p", "two.mp3", 90⟩
      [⟨"a1", "p", "one.mp3", 60⟩]).map (fun a => a.id)).Nodup ∧
    addAudioFile ⟨"a2", "p", "two.mp3", 90⟩
        (addAudioFile ⟨"a2", "p", "two.mp3", 90⟩ [⟨"a1", "p", "one.mp3", 60⟩])
      = addAudioFile ⟨"a2", "p", "two.mp3", 90⟩ [⟨"a1", "p", "one.mp3", 60⟩] :=
  ⟨by decide,
    (claim_C10_addAudioFile ⟨"a2", "p", "two.mp3", 90⟩
      [⟨"a1", "p", "one.mp3", 60⟩]).1 (by decide),
    (claim_C10_addAudioFile ⟨"a2", "p", "two.mp3", 90⟩
      [⟨"a1", "p", "one.mp3", 60⟩]).2⟩

end VideoGenPipeline
